import Mathlib

set_option autoImplicit false

/-
Shallow embedding of the LUMEN GENESIS generation and simulation pipeline.

Numbers are modelled as exact rationals.  The three sources of randomness in
the program are modelled as explicit inputs:
  - streams of values in the unit interval (for the height noise of soil
    points, the positions of synthetic fallback points and per-creature hue
    offsets), and
  - an index-choice oracle for the two Fisher-Yates shuffle call sites
    (the oracle gives, for each loop index i, the chosen index j).
Display-only creature attributes that are never read by the update logic
(particles, orbitals, ring counts, rotation offsets) are outside the modelled
state; the shared creature state contract is modelled in full.
-/

/-- A decoded source image: dimensions of the sampling surface and a pixel
map giving the red, green and blue channel of each coordinate. -/
structure Img where
  W : ℕ
  H : ℕ
  px : ℕ → ℕ → ℕ × ℕ × ℕ

/-- ITU-R BT.601 luminance of a pixel, as in both scan loops:
r * 0.299 + g * 0.587 + b * 0.114. -/
def lum (c : ℕ × ℕ × ℕ) : ℚ :=
  (c.1 : ℚ) * 0.299 + (c.2.1 : ℚ) * 0.587 + (c.2.2 : ℚ) * 0.114

/-- The shape option of the settings panel (rendering-only). -/
inductive Shape
  | dot
  | square
  | line
deriving DecidableEq

/-- SoilSettings.  The threshold and spacing sliders produce integers
(parseInt on a range input), so they are naturals here. -/
structure Settings where
  threshold : ℕ
  dotSize : ℚ
  spacing : ℕ
  shape : Shape
  maxPoints : ℕ

/-- A soil point: centered position, height noise z, raw luminance b and
normalized intensity n. -/
structure SoilPoint where
  x : ℚ
  y : ℚ
  z : ℚ
  b : ℚ
  n : ℚ
deriving DecidableEq

/-- The behavior profile computed by generateDigitalSoil. -/
structure SoilBehavior where
  densityFactor : ℚ
  heightFactor : ℚ
  thicknessFactor : ℚ
  growthSpeed : ℚ
  avgBrightness : ℚ

/-- The module-level interpolation utility:
lerp(start, stop, amt) = amt * (stop - start) + start. -/
def lerp (start stop amt : ℚ) : ℚ :=
  amt * (stop - start) + start

/-- mapRange(v, i1, i2, o1, o2) = o1 + (o2 - o1) * ((v - i1) / (i2 - i1)). -/
def mapRange (v i1 i2 o1 o2 : ℚ) : ℚ :=
  o1 + (o2 - o1) * ((v - i1) / (i2 - i1))

/-- Number of iterations of a loop running from 0 while < len with stride s,
i.e. the number of multiples of s below len (for s at least 1). -/
def numSteps (len s : ℕ) : ℕ :=
  (len + s - 1) / s

/-- The grid coordinates visited by both scan loops, in source order:
outer loop over y, inner loop over x, both from 0 with stride s. -/
def scanPositions (W H s : ℕ) : List (ℕ × ℕ) :=
  (List.range (numSteps H s)).flatMap fun ky =>
    (List.range (numSteps W s)).map fun kx => (kx * s, ky * s)

/-- The sampling stride: Math.max(1, settings.spacing). -/
def stepOf (st : Settings) : ℕ :=
  max 1 st.spacing

/-- The normalized intensity computed by both scans:
range = 255 - threshold; normalized = (bright - threshold) / (range or 1)
where a zero range is replaced by 1. -/
def normalizedOf (thr : ℕ) (br : ℚ) : ℚ :=
  (br - (thr : ℚ)) / (if (255 : ℚ) - (thr : ℚ) = 0 then 1 else (255 : ℚ) - (thr : ℚ))

/-- One retained sample of the final-generation scan: recentered position and
raw luminance. -/
structure ScanHit where
  sx : ℚ
  sy : ℚ
  br : ℚ
deriving DecidableEq

/-- The thresholding scan of generateDigitalSoil: visit the grid, keep the
pixels whose luminance is strictly above the threshold, recenter positions. -/
def soilScanRaw (img : Img) (st : Settings) : List ScanHit :=
  (scanPositions img.W img.H (stepOf st)).filterMap fun xy =>
    if (st.threshold : ℚ) < lum (img.px xy.1 xy.2) then
      some ⟨(xy.1 : ℚ) - (img.W : ℚ) / 2, (xy.2 : ℚ) - (img.H : ℚ) / 2,
            lum (img.px xy.1 xy.2)⟩
    else none

/-- Attach the height noise z = random * 6 - 3 to each retained sample, the
k-th retained point consuming the k-th value of the random stream, and fill
in the b and n fields as the push in the scan loop does. -/
def attachZ (thr : ℕ) (zs : ℕ → ℚ) : ℕ → List ScanHit → List SoilPoint
  | _, [] => []
  | k, h :: rest =>
      ⟨h.sx, h.sy, zs k * 6 - 3, h.br, normalizedOf thr h.br⟩ ::
        attachZ thr zs (k + 1) rest

/-- The soil points produced by the scan loop of generateDigitalSoil. -/
def soilScan (img : Img) (st : Settings) (zs : ℕ → ℚ) : List SoilPoint :=
  attachZ st.threshold zs 0 (soilScanRaw img st)

/-- brightnessSum: the sum of the normalized intensities accumulated during
the scan loop (over all scan-retained points, before any later step). -/
def brightnessSum (img : Img) (st : Settings) : ℚ :=
  ((soilScanRaw img st).map fun h => normalizedOf st.threshold h.br).sum

/-- The in-place swap of two array entries used by both Fisher-Yates loops
(a no-op when an index is out of range, which never happens in the loops). -/
def swapJS {α : Type} (l : List α) (i j : ℕ) : List α :=
  if hi : i < l.length then
    if hj : j < l.length then (l.set i l[j]).set j l[i] else l
  else l

/-- The Fisher-Yates loop: for i from k down to 1, swap entry i with entry
choice i (in the source, choice i = Math.floor(Math.random() * (i + 1))). -/
def fyLoop {α : Type} (choice : ℕ → ℕ) : ℕ → List α → List α
  | 0, l => l
  | k + 1, l => fyLoop choice k (swapJS l (k + 1) (choice (k + 1)))

/-- The Fisher-Yates shuffle as written in the source:
for (i = length - 1; i > 0; i--) swap entries i and choice i. -/
def fisherYates {α : Type} (choice : ℕ → ℕ) (l : List α) : List α :=
  fyLoop choice (l.length - 1) l

/-- The maxPoints cap of generateDigitalSoil: when more points were retained
than maxPoints, shuffle them and keep the first maxPoints. -/
def soilAfterCap (img : Img) (st : Settings) (zs : ℕ → ℚ) (choice : ℕ → ℕ) :
    List SoilPoint :=
  let pts := soilScan img st zs
  if st.maxPoints < pts.length then (fisherYates choice pts).take st.maxPoints
  else pts

/-- The 120 synthetic fallback points: random position inside the displayed
image bounds, z = 0, b = 255, n = 1. -/
def syntheticSoil (us vs : ℕ → ℚ) (Wq Hq : ℚ) : List SoilPoint :=
  (List.range 120).map fun i =>
    ⟨(us i - 1/2) * Wq, (vs i - 1/2) * Hq, 0, 255, 1⟩

/-- The final soil point list of generateDigitalSoil: the capped scan output,
with the 120 synthetic points appended when fewer than 50 points are held. -/
def soilFinal (img : Img) (st : Settings) (zs : ℕ → ℚ) (choice : ℕ → ℕ)
    (us vs : ℕ → ℚ) (Wq Hq : ℚ) : List SoilPoint :=
  let capped := soilAfterCap img st zs choice
  if capped.length < 50 then capped ++ syntheticSoil us vs Wq Hq else capped

/-- generateDigitalSoil: the final soil points together with the behavior
profile.  avgN divides the brightness sum accumulated during the scan by the
length of the final point list. -/
def genSoil (img : Img) (st : Settings) (zs : ℕ → ℚ) (choice : ℕ → ℕ)
    (us vs : ℕ → ℚ) (Wq Hq : ℚ) : List SoilPoint × SoilBehavior :=
  let final := soilFinal img st zs choice us vs Wq Hq
  let avgN : ℚ :=
    if 0 < final.length then brightnessSum img st / (final.length : ℚ) else 1/2
  (final,
    { densityFactor := mapRange (st.spacing : ℚ) 2 20 1.3 0.5
      heightFactor :=
        mapRange st.dotSize 2 20 0.7 1.6 * mapRange (st.threshold : ℚ) 0 255 0.8 1.25
      thicknessFactor := mapRange st.dotSize 2 20 0.7 1.6
      growthSpeed := mapRange (st.threshold : ℚ) 0 255 0.8 1.25
      avgBrightness := avgN })

/-- A preview dot: screen position and drawn size. -/
structure PreviewDot where
  x : ℚ
  y : ℚ
  size : ℚ
deriving DecidableEq

/-- The preview scan of recomputePreviewDots before the cap: same grid and
threshold test as the final scan, plus the radius filter
(radius = normalized * dotSize, dots with radius at most 0.3 are skipped). -/
def previewDotsAll (img : Img) (st : Settings) : List PreviewDot :=
  (scanPositions img.W img.H (stepOf st)).filterMap fun xy =>
    if (st.threshold : ℚ) < lum (img.px xy.1 xy.2) then
      if normalizedOf st.threshold (lum (img.px xy.1 xy.2)) * st.dotSize ≤ 0.3 then
        none
      else
        some ⟨(xy.1 : ℚ) - (img.W : ℚ) / 2, (xy.2 : ℚ) - (img.H : ℚ) / 2,
              normalizedOf st.threshold (lum (img.px xy.1 xy.2)) * st.dotSize⟩
    else none

/-- recomputePreviewDots: the preview scan, truncated to 4000 dots in scan
order when longer. -/
def recomputePreviewDots (img : Img) (st : Settings) : List PreviewDot :=
  let dots := previewDotsAll img st
  if 4000 < dots.length then dots.take 4000 else dots

/-- The four creature species tags. -/
inductive Species
  | torus
  | mobius
  | knot
  | hopf
deriving DecidableEq

/-- Per-creature parameters derived at spawn time. -/
structure CreatureParams where
  strength : ℚ
  heightFactor : ℚ
  thicknessFactor : ℚ

/-- The shared creature state: spawn position, spawn-time derived constants
and the per-tick animation state. -/
structure Creature where
  baseX : ℚ
  baseY : ℚ
  baseZ : ℚ
  strength : ℚ
  heightBase : ℚ
  radiusBase : ℚ
  thickness : ℚ
  hueOffset : ℚ
  growth : ℚ
  wind : ℚ
  contraction : ℚ
  verticalInf : ℚ
  time : ℚ
deriving DecidableEq

/-- Construction of a creature of the given species: the base constructor
sets position, strength, hueOffset = (random - 0.5) * 30 and defaults, then
the variant constructor derives its base height and base radius from the
strength and the two behavior factors by its own fixed linear ranges. -/
def spawnCreature (species : Species) (x y z : ℚ) (params : CreatureParams)
    (hue : ℚ) : Creature :=
  let base : Creature :=
    { baseX := x, baseY := y, baseZ := z, strength := params.strength
      heightBase := 100, radiusBase := 10, thickness := 1
      hueOffset := (hue - 1/2) * 30
      growth := 0, wind := 0, contraction := 0, verticalInf := 0, time := 0 }
  match species with
  | .torus =>
      { base with
        heightBase := lerp 80 160 params.strength * params.heightFactor
        radiusBase := lerp 12 24 params.strength * params.thicknessFactor }
  | .mobius =>
      { base with
        heightBase := lerp 70 150 params.strength * params.heightFactor
        radiusBase := lerp 8 16 params.strength * params.thicknessFactor }
  | .knot =>
      { base with
        heightBase := lerp 60 110 params.strength * params.heightFactor
        radiusBase := lerp 10 20 params.strength * params.thicknessFactor }
  | .hopf =>
      { base with
        heightBase := lerp 80 160 params.strength * params.heightFactor
        radiusBase := lerp 8 15 params.strength * params.thicknessFactor }

/-- Creature.update: store the four interaction scalars and derive
time = frame * 0.03.  No other field is touched. -/
def Creature.update (c : Creature) (growth wind contraction verticalInf frame : ℚ) :
    Creature :=
  { c with
    growth := growth, wind := wind, contraction := contraction
    verticalInf := verticalInf, time := frame * 0.03 }

/-- The spawn count computed by setupCreatures:
baseCount = floor(mapRange(pointCount, 50, 1200, 30, 160)),
plantCount = floor(baseCount * densityFactor),
useCount = min(plantCount, pointCount). -/
def targetCount (n : ℕ) (density : ℚ) : ℤ :=
  min ⌊((⌊mapRange (n : ℚ) 50 1200 30 160⌋ : ℤ) : ℚ) * density⌋ (n : ℤ)

/-- The soil point indices selected by setupCreatures: a Fisher-Yates shuffle
of all indices, keeping the first useCount (none when useCount is negative,
as the spawn loop then performs no iteration). -/
def selectedIndices (n : ℕ) (density : ℚ) (choice : ℕ → ℕ) : List ℕ :=
  (fisherYates choice (List.range n)).take (targetCount n density).toNat

/-- The spawn loop body of setupCreatures applied to a list of selected
indices, the k-th creature consuming the k-th hue random value:
strength = point.n, heightFactor = lerp(0.8, 1.5, strength) * behavior factor,
thicknessFactor = lerp(0.8, 1.4, strength) * behavior factor, position
(point.x, point.z * 1.5, point.y). -/
def spawnAll (species : Species) (behavior : SoilBehavior)
    (points : List SoilPoint) (hues : ℕ → ℚ) : ℕ → List ℕ → List Creature
  | _, [] => []
  | k, idx :: rest =>
      let p := points.getD idx ⟨0, 0, 0, 0, 0⟩
      spawnCreature species p.x (p.z * 1.5) p.y
        ⟨p.n, lerp 0.8 1.5 p.n * behavior.heightFactor,
          lerp 0.8 1.4 p.n * behavior.thicknessFactor⟩ (hues k) ::
        spawnAll species behavior points hues (k + 1) rest

/-- setupCreatures: spawn one creature per selected index. -/
def setupCreatures (points : List SoilPoint) (behavior : SoilBehavior)
    (species : Species) (choice : ℕ → ℕ) (hues : ℕ → ℚ) : List Creature :=
  spawnAll species behavior points hues 0
    (selectedIndices points.length behavior.densityFactor choice)

/-- Per-tick exponential smoothing of the wind scalar:
wind = lerp(wind, windTarget, 0.05). -/
def windSmooth (target w : ℚ) : ℚ :=
  lerp w target 0.05

/-- Per-tick exponential smoothing of the vertical-influence scalar:
verticalInfluence = lerp(verticalInfluence, target, 0.1). -/
def verticalSmooth (target w : ℚ) : ℚ :=
  lerp w target 0.1

/-- Per-tick exponential smoothing of the contraction scalar:
contraction = lerp(contraction, target, 0.1). -/
def contractionSmooth (target w : ℚ) : ℚ :=
  lerp w target 0.1

/-- n ticks of a smoothing step against a constant target. -/
def smoothIter (f : ℚ → ℚ → ℚ) (target w0 : ℚ) : ℕ → ℚ
  | 0 => w0
  | n + 1 => f target (smoothIter f target w0 n)

/-- The target plant count as the specification words it (claim C2): floor of
the raw remap of the point count times the density factor, clamped to the
interval from 0 to the point count.  Stated for comparison with targetCount,
which is what the source computes. -/
def specTargetPlantCount (n : ℕ) (density : ℚ) : ℤ :=
  max 0 (min ⌊mapRange (n : ℚ) 50 1200 30 160 * density⌋ (n : ℤ))

/-! Helper lemmas about the shuffle. -/

lemma length_swapJS {α : Type} (l : List α) (i j : ℕ) :
    (swapJS l i j).length = l.length := by
  unfold swapJS
  split <;> [skip; rfl]
  split <;> simp

lemma swapJS_perm {α : Type} [DecidableEq α] (l : List α) (i j : ℕ) :
    (swapJS l i j).Perm l := by
  unfold swapJS
  split
  case isFalse => exact .refl _
  case isTrue hi =>
    split
    case isFalse => exact .refl _
    case isTrue hj =>
      rw [List.perm_iff_count]
      intro a
      have hj2 : j < (l.set i l[j]).length := by simpa using hj
      have hset : (l.set i l[j])[j] = l[j] := by
        rcases eq_or_ne i j with rfl | hne
        · exact List.getElem_set_self hj2
        · exact List.getElem_set_ne hne hj2
      rw [List.count_set l[i] a (l.set i l[j]) j hj2, List.count_set l[j] a l i hi,
        hset]
      have h1 : l[i] ∈ l := List.getElem_mem hi
      have h2 : l[j] ∈ l := List.getElem_mem hj
      simp only [beq_iff_eq]
      split_ifs with p q
      · have hc : 1 ≤ List.count a l := List.count_pos_iff.mpr (p ▸ h1)
        omega
      · have hc : 1 ≤ List.count a l := List.count_pos_iff.mpr (p ▸ h1)
        omega
      · omega
      · omega

lemma fyLoop_length {α : Type} (choice : ℕ → ℕ) :
    ∀ (k : ℕ) (l : List α), (fyLoop choice k l).length = l.length := by
  intro k
  induction k with
  | zero => intro l; rfl
  | succ k ih => intro l; rw [fyLoop, ih, length_swapJS]

lemma fyLoop_perm {α : Type} [DecidableEq α] (choice : ℕ → ℕ) :
    ∀ (k : ℕ) (l : List α), (fyLoop choice k l).Perm l := by
  intro k
  induction k with
  | zero => intro l; exact .refl _
  | succ k ih => intro l; exact (ih _).trans (swapJS_perm _ _ _)

lemma fisherYates_length {α : Type} (choice : ℕ → ℕ) (l : List α) :
    (fisherYates choice l).length = l.length :=
  fyLoop_length choice _ l

lemma fisherYates_perm {α : Type} [DecidableEq α] (choice : ℕ → ℕ) (l : List α) :
    (fisherYates choice l).Perm l :=
  fyLoop_perm choice _ l

/-! Helper lemmas about the scan. -/

lemma attachZ_length (thr : ℕ) (zs : ℕ → ℚ) :
    ∀ (k : ℕ) (l : List ScanHit), (attachZ thr zs k l).length = l.length := by
  intro k l
  induction l generalizing k with
  | nil => rfl
  | cons h rest ih => simp [attachZ, ih]

lemma attachZ_map_n (thr : ℕ) (zs : ℕ → ℚ) :
    ∀ (k : ℕ) (l : List ScanHit),
      (attachZ thr zs k l).map SoilPoint.n = l.map fun h => normalizedOf thr h.br := by
  intro k l
  induction l generalizing k with
  | nil => rfl
  | cons h rest ih => simp [attachZ, ih]

lemma mem_attachZ {thr : ℕ} {zs : ℕ → ℚ} :
    ∀ {k : ℕ} {l : List ScanHit} {p : SoilPoint}, p ∈ attachZ thr zs k l →
      ∃ h ∈ l, p.b = h.br ∧ p.n = normalizedOf thr h.br := by
  intro k l
  induction l generalizing k with
  | nil => intro p hp; simp [attachZ] at hp
  | cons h rest ih =>
      intro p hp
      rw [attachZ, List.mem_cons] at hp
      rcases hp with rfl | hp
      · exact ⟨h, List.mem_cons_self h rest, rfl, rfl⟩
      · obtain ⟨g, hg, hb, hn⟩ := ih hp
        exact ⟨g, List.mem_cons_of_mem h hg, hb, hn⟩

lemma soilScan_length (img : Img) (st : Settings) (zs : ℕ → ℚ) :
    (soilScan img st zs).length = (soilScanRaw img st).length :=
  attachZ_length _ _ _ _

lemma numSteps_pos_of_lt {len s k : ℕ} (hs : 1 ≤ s) (hk : k < numSteps len s) :
    k * s < len := by
  have h1 : k + 1 ≤ (len + s - 1) / s := hk
  have h2 : (k + 1) * s ≤ ((len + s - 1) / s) * s :=
    Nat.mul_le_mul_right s h1
  have h3 : ((len + s - 1) / s) * s ≤ len + s - 1 := Nat.div_mul_le_self _ _
  have h4 : (k + 1) * s = k * s + s := by ring
  omega

lemma mem_scanPositions {W H s : ℕ} (hs : 1 ≤ s) {xy : ℕ × ℕ}
    (h : xy ∈ scanPositions W H s) : xy.1 < W ∧ xy.2 < H := by
  rw [scanPositions, List.mem_flatMap] at h
  obtain ⟨ky, hky, hx⟩ := h
  rw [List.mem_map] at hx
  obtain ⟨kx, hkx, rfl⟩ := hx
  rw [List.mem_range] at hky hkx
  exact ⟨numSteps_pos_of_lt hs hkx, numSteps_pos_of_lt hs hky⟩

lemma scanPositions_length (W H s : ℕ) :
    (scanPositions W H s).length = numSteps H s * numSteps W s := by
  simp [scanPositions, List.length_flatMap, Function.comp_def,
    List.map_const, List.sum_replicate, Nat.smul_one_eq_cast]

lemma filterMap_eq_map_of_forall {α β : Type} {f : α → Option β} {g : α → β} :
    ∀ {l : List α}, (∀ a ∈ l, f a = some (g a)) → l.filterMap f = l.map g := by
  intro l
  induction l with
  | nil => intro; rfl
  | cons x tl ih =>
      intro h
      rw [List.filterMap_cons, h x (List.mem_cons_self x tl), List.map_cons,
        ih fun a ha => h a (List.mem_cons_of_mem x ha)]

lemma soilAfterCap_length_le (img : Img) (st : Settings) (zs : ℕ → ℚ)
    (choice : ℕ → ℕ) : (soilAfterCap img st zs choice).length ≤
      max st.maxPoints (soilScan img st zs).length := by
  rw [soilAfterCap]
  split
  · simp [List.length_take]
  · simp

lemma soilAfterCap_le_maxPoints (img : Img) (st : Settings) (zs : ℕ → ℚ)
    (choice : ℕ → ℕ) :
    (soilAfterCap img st zs choice).length ≤ st.maxPoints ∨
      soilAfterCap img st zs choice = soilScan img st zs := by
  rw [soilAfterCap]
  split
  · left; simp [List.length_take]
  · right; rfl

lemma soilAfterCap_length_le_max (img : Img) (st : Settings) (zs : ℕ → ℚ)
    (choice : ℕ → ℕ) :
    (soilAfterCap img st zs choice).length ≤ st.maxPoints := by
  rw [soilAfterCap]
  split
  case isTrue h => simp [List.length_take]
  case isFalse h => omega

lemma syntheticSoil_length (us vs : ℕ → ℚ) (Wq Hq : ℚ) :
    (syntheticSoil us vs Wq Hq).length = 120 := by
  simp [syntheticSoil]

lemma soilFinal_eq (img : Img) (st : Settings) (zs : ℕ → ℚ) (choice : ℕ → ℕ)
    (us vs : ℕ → ℚ) (Wq Hq : ℚ) :
    soilFinal img st zs choice us vs Wq Hq =
      if (soilAfterCap img st zs choice).length < 50 then
        soilAfterCap img st zs choice ++ syntheticSoil us vs Wq Hq
      else soilAfterCap img st zs choice := rfl

lemma soilFinal_length_pos (img : Img) (st : Settings) (zs : ℕ → ℚ)
    (choice : ℕ → ℕ) (us vs : ℕ → ℚ) (Wq Hq : ℚ) :
    50 ≤ (soilFinal img st zs choice us vs Wq Hq).length := by
  rw [soilFinal_eq]
  split
  case isTrue h => rw [List.length_append, syntheticSoil_length]; omega
  case isFalse h => omega

lemma genSoil_avgBrightness (img : Img) (st : Settings) (zs : ℕ → ℚ)
    (choice : ℕ → ℕ) (us vs : ℕ → ℚ) (Wq Hq : ℚ) :
    (genSoil img st zs choice us vs Wq Hq).2.avgBrightness =
      brightnessSum img st /
        ((soilFinal img st zs choice us vs Wq Hq).length : ℚ) := by
  have h := soilFinal_length_pos img st zs choice us vs Wq Hq
  rw [genSoil]
  simp only
  rw [if_pos (by omega)]

/-! Helper lemmas about the normalization formula. -/

lemma normalizedOf_denom_pos {thr : ℕ} (h : thr ≤ 255) :
    0 < (if (255 : ℚ) - (thr : ℚ) = 0 then 1 else (255 : ℚ) - (thr : ℚ)) := by
  split
  · norm_num
  case isFalse hne =>
    have : (thr : ℚ) ≤ 255 := by exact_mod_cast h
    rcases lt_or_eq_of_le this with hlt | heq
    · linarith
    · exact absurd (by rw [heq]; ring) hne

lemma normalizedOf_denom_eq_max {thr : ℕ} (h : thr ≤ 255) :
    (if (255 : ℚ) - (thr : ℚ) = 0 then 1 else (255 : ℚ) - (thr : ℚ)) =
      max 1 ((255 : ℚ) - (thr : ℚ)) := by
  rcases Nat.lt_or_ge thr 255 with hlt | hge
  · have h1 : (1 : ℚ) ≤ (255 : ℚ) - (thr : ℚ) := by
      have : (thr : ℚ) ≤ 254 := by exact_mod_cast Nat.le_pred_of_lt hlt
      linarith
    rw [if_neg (by linarith), max_eq_right h1]
  · have h255 : thr = 255 := le_antisymm h hge
    subst h255
    norm_num

lemma normalizedOf_eq_max {thr : ℕ} (h : thr ≤ 255) (br : ℚ) :
    normalizedOf thr br = (br - (thr : ℚ)) / max 1 ((255 : ℚ) - (thr : ℚ)) := by
  rw [normalizedOf, normalizedOf_denom_eq_max h]

lemma normalizedOf_strictMono {thr : ℕ} (h : thr ≤ 255) {b1 b2 : ℚ}
    (hb : b1 < b2) : normalizedOf thr b1 < normalizedOf thr b2 := by
  rw [normalizedOf, normalizedOf]
  exact div_lt_div_of_pos_right (by linarith) (normalizedOf_denom_pos h)

lemma normalizedOf_nonneg {thr : ℕ} (h : thr ≤ 255) {br : ℚ}
    (hbr : (thr : ℚ) < br) : 0 ≤ normalizedOf thr br :=
  le_of_lt (div_pos (by linarith) (normalizedOf_denom_pos h))

lemma normalizedOf_le_one {thr : ℕ} (h : thr ≤ 255) {br : ℚ}
    (hbr : br ≤ 255) : normalizedOf thr br ≤ 1 := by
  rw [normalizedOf]
  rw [div_le_one (normalizedOf_denom_pos h)]
  split
  case isTrue he =>
    have : (255 : ℚ) = (thr : ℚ) := by linarith
    linarith
  case isFalse hne => linarith

lemma lum_le_255 {c : ℕ × ℕ × ℕ} (h1 : c.1 ≤ 255) (h2 : c.2.1 ≤ 255)
    (h3 : c.2.2 ≤ 255) : lum c ≤ 255 := by
  rw [lum]
  have q1 : (c.1 : ℚ) ≤ 255 := by exact_mod_cast h1
  have q2 : (c.2.1 : ℚ) ≤ 255 := by exact_mod_cast h2
  have q3 : (c.2.2 : ℚ) ≤ 255 := by exact_mod_cast h3
  norm_num
  linarith

/-! Helper lemmas about the interaction smoothing. -/

lemma smoothIter_sub_eq {c : ℚ} {f : ℚ → ℚ → ℚ}
    (hf : ∀ t w, f t w = lerp w t c) (T w0 : ℚ) :
    ∀ n, T - smoothIter f T w0 n = (1 - c) ^ n * (T - w0) := by
  intro n
  induction n with
  | zero => simp [smoothIter]
  | succ n ih =>
      rw [smoothIter, hf, lerp]
      have : T - (c * (T - smoothIter f T w0 n) + smoothIter f T w0 n) =
          (1 - c) * (T - smoothIter f T w0 n) := by ring
      rw [this, ih, pow_succ]
      ring

lemma smoothIter_step {c : ℚ} {f : ℚ → ℚ → ℚ}
    (hf : ∀ t w, f t w = lerp w t c) (T w0 : ℚ) (n : ℕ) :
    T - smoothIter f T w0 (n + 1) = (1 - c) * (T - smoothIter f T w0 n) := by
  rw [smoothIter, hf, lerp]
  ring

lemma smoothIter_sign {c : ℚ} (_hc0 : 0 ≤ c) (hc1 : c ≤ 1) {f : ℚ → ℚ → ℚ}
    (hf : ∀ t w, f t w = lerp w t c) (T w0 : ℚ) (n : ℕ) :
    (0 ≤ T - w0 → 0 ≤ T - smoothIter f T w0 n) ∧
      (T - w0 ≤ 0 → T - smoothIter f T w0 n ≤ 0) := by
  rw [smoothIter_sub_eq hf]
  have hpow : (0 : ℚ) ≤ (1 - c) ^ n := pow_nonneg (by linarith) n
  constructor
  · intro h; exact mul_nonneg hpow h
  · intro h; exact mul_nonpos_of_nonneg_of_nonpos hpow h

lemma smoothIter_tendsto {c : ℚ} (hc0 : 0 < c) (hc1 : c ≤ 1) {f : ℚ → ℚ → ℚ}
    (hf : ∀ t w, f t w = lerp w t c) (T w0 : ℚ) {ε : ℚ} (hε : 0 < ε) :
    ∃ N, ∀ n, N ≤ n → |T - smoothIter f T w0 n| < ε := by
  have habs : ∀ n, |T - smoothIter f T w0 n| = (1 - c) ^ n * |T - w0| := by
    intro n
    rw [smoothIter_sub_eq hf, abs_mul, abs_pow,
      abs_of_nonneg (by linarith : (0 : ℚ) ≤ 1 - c)]
  rcases eq_or_ne (T - w0) 0 with h0 | h0
  · refine ⟨0, fun n _ => ?_⟩
    rw [habs, h0, abs_zero, mul_zero]
    exact hε
  · have hd : 0 < |T - w0| := abs_pos.mpr h0
    obtain ⟨N, hN⟩ := exists_pow_lt_of_lt_one (div_pos hε hd)
      (by linarith : (1 : ℚ) - c < 1)
    refine ⟨N, fun n hn => ?_⟩
    rw [habs]
    have hmono : (1 - c) ^ n ≤ (1 - c) ^ N :=
      pow_le_pow_of_le_one (by linarith) (by linarith) hn
    calc (1 - c) ^ n * |T - w0| ≤ (1 - c) ^ N * |T - w0| :=
          mul_le_mul_of_nonneg_right hmono (le_of_lt hd)
      _ < (ε / |T - w0|) * |T - w0| :=
          mul_lt_mul_of_pos_right hN hd
      _ = ε := div_mul_cancel₀ ε (ne_of_gt hd)

/-! Helper lemmas about the spawner. -/

lemma spawnAll_length (species : Species) (behavior : SoilBehavior)
    (points : List SoilPoint) (hues : ℕ → ℚ) :
    ∀ (k : ℕ) (idxs : List ℕ),
      (spawnAll species behavior points hues k idxs).length = idxs.length := by
  intro k idxs
  induction idxs generalizing k with
  | nil => rfl
  | cons i rest ih => simp [spawnAll, ih]

lemma targetCount_le (n : ℕ) (density : ℚ) : targetCount n density ≤ (n : ℤ) :=
  min_le_right _ _

lemma selectedIndices_length (n : ℕ) (density : ℚ) (choice : ℕ → ℕ) :
    (selectedIndices n density choice).length = (targetCount n density).toNat := by
  rw [selectedIndices, List.length_take, fisherYates_length, List.length_range]
  exact Nat.min_eq_left (Int.toNat_le.mpr (targetCount_le n density))

lemma setupCreatures_length (points : List SoilPoint) (behavior : SoilBehavior)
    (species : Species) (choice : ℕ → ℕ) (hues : ℕ → ℚ) :
    (setupCreatures points behavior species choice hues).length =
      (targetCount points.length behavior.densityFactor).toNat := by
  rw [setupCreatures, spawnAll_length, selectedIndices_length]

lemma selectedIndices_nodup (n : ℕ) (density : ℚ) (choice : ℕ → ℕ) :
    (selectedIndices n density choice).Nodup :=
  ((List.take_sublist _ _).nodup
    ((fisherYates_perm choice (List.range n)).nodup_iff.mpr (List.nodup_range n)))

lemma selectedIndices_lt (n : ℕ) (density : ℚ) (choice : ℕ → ℕ) :
    ∀ i ∈ selectedIndices n density choice, i < n := by
  intro i hi
  have : i ∈ fisherYates choice (List.range n) := List.mem_of_mem_take hi
  have : i ∈ List.range n := (fisherYates_perm choice (List.range n)).mem_iff.mp this
  exact List.mem_range.mp this

/-! Concrete instances used by witnesses and counterexamples. -/

/-- A one-by-one all-black image. -/
def imgB : Img := ⟨1, 1, fun _ _ => (0, 0, 0)⟩

/-- A one-by-one all-white image. -/
def imgW1 : Img := ⟨1, 1, fun _ _ => (255, 255, 255)⟩

/-- A 100 by 100 image whose every pixel has luminance 200. -/
def img9 : Img := ⟨100, 100, fun _ _ => (200, 200, 200)⟩

/-- The default settings of the application. -/
def stD : Settings := ⟨100, 8, 4, Shape.dot, 2000⟩

/-- The settings of the concrete preview scenario: threshold 100, dot size 8,
spacing 10. -/
def st9 : Settings := ⟨100, 8, 10, Shape.dot, 2000⟩

/-- Default settings with maxPoints lowered to 100. -/
def st100 : Settings := ⟨100, 8, 4, Shape.dot, 100⟩

/-- A constant random stream with value one half. -/
def halfStream : ℕ → ℚ := fun _ => 1/2

/-- A shuffle oracle that always chooses index 0. -/
def zeroChoice : ℕ → ℕ := fun _ => 0

lemma soilScanRaw_eq_nil {img : Img} {st : Settings}
    (hdark : ∀ x y, x < img.W → y < img.H →
      lum (img.px x y) ≤ (st.threshold : ℚ)) :
    soilScanRaw img st = [] := by
  rw [soilScanRaw, List.filterMap_eq_nil_iff]
  intro xy hxy
  obtain ⟨hx, hy⟩ := mem_scanPositions (le_max_left 1 st.spacing) hxy
  rw [if_neg (not_lt.mpr (hdark xy.1 xy.2 hx hy))]

lemma soilFinal_of_dark {img : Img} {st : Settings}
    (hdark : ∀ x y, x < img.W → y < img.H →
      lum (img.px x y) ≤ (st.threshold : ℚ))
    (zs : ℕ → ℚ) (choice : ℕ → ℕ) (us vs : ℕ → ℚ) (Wq Hq : ℚ) :
    soilFinal img st zs choice us vs Wq Hq = syntheticSoil us vs Wq Hq := by
  have hscan : soilScan img st zs = [] := by
    rw [soilScan, soilScanRaw_eq_nil hdark]
    rfl
  have hcap : soilAfterCap img st zs choice = [] := by
    rw [soilAfterCap, hscan]
    simp
  rw [soilFinal_eq, hcap]
  simp

lemma syntheticSoil_map_n (us vs : ℕ → ℚ) (Wq Hq : ℚ) :
    (syntheticSoil us vs Wq Hq).map SoilPoint.n = List.replicate 120 1 := by
  rw [syntheticSoil, List.map_map]
  rw [show ((fun p : SoilPoint => p.n) ∘ fun i =>
    (⟨(us i - 1/2) * Wq, (vs i - 1/2) * Hq, 0, 255, 1⟩ : SoilPoint)) =
      fun _ => (1 : ℚ) from rfl]
  simp

/-- C3: for an all-black image of any size (every pixel luminance at most the
threshold, so the scan retains nothing), final generation produces exactly 120
synthetic soil points, each with n = 1, b = 255, z = 0 and position
randomized within the image bounds. -/
theorem claim3_allBlack (img : Img) (st : Settings) (zs : ℕ → ℚ)
    (choice : ℕ → ℕ) (us vs : ℕ → ℚ) (Wq Hq : ℚ)
    (hdark : ∀ x y, x < img.W → y < img.H →
      lum (img.px x y) ≤ (st.threshold : ℚ))
    (hu : ∀ i, 0 ≤ us i ∧ us i ≤ 1) (hv : ∀ i, 0 ≤ vs i ∧ vs i ≤ 1)
    (hWq : 0 ≤ Wq) (hHq : 0 ≤ Hq) :
    (soilFinal img st zs choice us vs Wq Hq).length = 120 ∧
    ∀ p ∈ soilFinal img st zs choice us vs Wq Hq,
      p.n = 1 ∧ p.b = 255 ∧ p.z = 0 ∧ |p.x| ≤ Wq / 2 ∧ |p.y| ≤ Hq / 2 := by
  rw [soilFinal_of_dark hdark]
  refine ⟨syntheticSoil_length us vs Wq Hq, ?_⟩
  intro p hp
  rw [syntheticSoil, List.mem_map] at hp
  obtain ⟨i, _, rfl⟩ := hp
  refine ⟨rfl, rfl, rfl, ?_, ?_⟩
  · have hbound : |us i - 1/2| ≤ 1/2 :=
      abs_le.mpr ⟨by linarith [(hu i).1], by linarith [(hu i).2]⟩
    calc |(us i - 1/2) * Wq| = |us i - 1/2| * Wq := by
          rw [abs_mul, abs_of_nonneg hWq]
      _ ≤ (1/2) * Wq := mul_le_mul_of_nonneg_right hbound hWq
      _ = Wq / 2 := by ring
  · have hbound : |vs i - 1/2| ≤ 1/2 :=
      abs_le.mpr ⟨by linarith [(hv i).1], by linarith [(hv i).2]⟩
    calc |(vs i - 1/2) * Hq| = |vs i - 1/2| * Hq := by
          rw [abs_mul, abs_of_nonneg hHq]
      _ ≤ (1/2) * Hq := mul_le_mul_of_nonneg_right hbound hHq
      _ = Hq / 2 := by ring

/-- Witness for C3 at the one-by-one all-black image with the default
settings and constant one-half random streams. -/
theorem claim3_witness :
    (soilFinal imgB stD halfStream zeroChoice halfStream halfStream 1 1).length
        = 120 ∧
    ∀ p ∈ soilFinal imgB stD halfStream zeroChoice halfStream halfStream 1 1,
      p.n = 1 ∧ p.b = 255 ∧ p.z = 0 ∧ |p.x| ≤ 1 / 2 ∧ |p.y| ≤ 1 / 2 :=
  claim3_allBlack imgB stD halfStream zeroChoice halfStream halfStream 1 1
    (fun x y _ _ => by simp [imgB, stD, lum])
    (fun i => by norm_num [halfStream]) (fun i => by norm_num [halfStream])
    (by norm_num) (by norm_num)

/-! Evaluation of the uniform gray 100 by 100 scenario. -/

lemma lum_gray200 : lum (200, 200, 200) = 200 := by
  norm_num [lum]

lemma normalizedOf_100_200 : normalizedOf 100 200 = 20/31 := by
  rw [normalizedOf]
  norm_num

lemma soilScanRaw_img9 :
    soilScanRaw img9 st9 = (scanPositions 100 100 10).map
      (fun xy => ⟨(xy.1 : ℚ) - 50, (xy.2 : ℚ) - 50, 200⟩) := by
  rw [soilScanRaw]
  apply filterMap_eq_map_of_forall
  intro xy _
  simp only [img9, st9]
  rw [lum_gray200]
  norm_num

lemma scanPositions_100_length : (scanPositions 100 100 10).length = 100 := by
  rw [scanPositions_length]
  norm_num [numSteps]

lemma soilScanRaw_img9_length : (soilScanRaw img9 st9).length = 100 := by
  rw [soilScanRaw_img9, List.length_map, scanPositions_100_length]

lemma previewDotsAll_img9 :
    previewDotsAll img9 st9 = (scanPositions 100 100 10).map
      (fun xy => ⟨(xy.1 : ℚ) - 50, (xy.2 : ℚ) - 50, 160/31⟩) := by
  rw [previewDotsAll]
  apply filterMap_eq_map_of_forall
  intro xy _
  simp only [img9, st9]
  rw [lum_gray200, normalizedOf_100_200]
  norm_num

/-- C9: for the 100 by 100 image of constant luminance 200 with threshold
100, spacing 10 and dot size 8, the preview scan yields exactly 100 dots (a
10 by 10 grid), none removed by the radius filter, each of size
(200 - 100) / 155 * 8 = 160/31. -/
theorem claim9_previewScenario :
    (recomputePreviewDots img9 st9).length = 100 ∧
    ∀ d ∈ recomputePreviewDots img9 st9, d.size = 160/31 := by
  have hall : (previewDotsAll img9 st9).length = 100 := by
    rw [previewDotsAll_img9, List.length_map, scanPositions_100_length]
  have heq : recomputePreviewDots img9 st9 = previewDotsAll img9 st9 := by
    rw [recomputePreviewDots]
    simp only [hall]
    norm_num
  rw [heq, hall]
  refine ⟨rfl, ?_⟩
  intro d hd
  rw [previewDotsAll_img9, List.mem_map] at hd
  obtain ⟨xy, _, rfl⟩ := hd
  rfl

/-! C1: the avgBrightness statistic. -/

/-- C1 (amended): avgBrightness is the brightness sum accumulated over the
scan-retained points divided by the length of the final point list, which is
always positive.  It is the arithmetic mean of the normalized intensities of
the final points exactly when the scan retains between 50 and maxPoints
points (no subsampling and no synthetic injection); when the scan retains no
point at all it equals 0, not 0.5 (the 0.5 branch is unreachable because the
120 synthetic points are always injected first). -/
theorem claim1_avgBrightness (img : Img) (st : Settings) (zs : ℕ → ℚ)
    (choice : ℕ → ℕ) (us vs : ℕ → ℚ) (Wq Hq : ℚ) :
    0 < (soilFinal img st zs choice us vs Wq Hq).length ∧
    (genSoil img st zs choice us vs Wq Hq).2.avgBrightness =
      brightnessSum img st /
        ((soilFinal img st zs choice us vs Wq Hq).length : ℚ) ∧
    (50 ≤ (soilScan img st zs).length →
      (soilScan img st zs).length ≤ st.maxPoints →
      (genSoil img st zs choice us vs Wq Hq).2.avgBrightness =
        ((soilFinal img st zs choice us vs Wq Hq).map SoilPoint.n).sum /
          ((soilFinal img st zs choice us vs Wq Hq).length : ℚ)) ∧
    ((soilScan img st zs).length = 0 →
      (genSoil img st zs choice us vs Wq Hq).2.avgBrightness = 0) := by
  refine ⟨by linarith [soilFinal_length_pos img st zs choice us vs Wq Hq],
    genSoil_avgBrightness img st zs choice us vs Wq Hq, ?_, ?_⟩
  · intro h50 hmax
    have hcap : soilAfterCap img st zs choice = soilScan img st zs := by
      rw [soilAfterCap, if_neg (by omega)]
    have hfin : soilFinal img st zs choice us vs Wq Hq = soilScan img st zs := by
      rw [soilFinal_eq, hcap, if_neg (by omega)]
    rw [genSoil_avgBrightness, hfin]
    have hsum : ((soilScan img st zs).map SoilPoint.n).sum =
        brightnessSum img st := by
      rw [soilScan, attachZ_map_n, brightnessSum]
    rw [hsum]
  · intro h0
    have hraw : soilScanRaw img st = [] := by
      have : (soilScanRaw img st).length = 0 := by
        rw [← soilScan_length img st zs, h0]
      exact List.eq_nil_of_length_eq_zero this
    rw [genSoil_avgBrightness, brightnessSum, hraw]
    simp

/-- Witness for C1 in the mean case: the uniform gray scenario retains 100
points, between 50 and maxPoints, so avgBrightness is the mean of the
normalized intensities of the final points. -/
theorem claim1_witness :
    (genSoil img9 st9 halfStream zeroChoice halfStream halfStream 100 100).2.avgBrightness =
      ((soilFinal img9 st9 halfStream zeroChoice halfStream halfStream 100 100).map
          SoilPoint.n).sum /
        ((soilFinal img9 st9 halfStream zeroChoice halfStream halfStream 100 100).length : ℚ) :=
  (claim1_avgBrightness img9 st9 halfStream zeroChoice halfStream halfStream
      100 100).2.2.1
    (by rw [soilScan_length, soilScanRaw_img9_length]; norm_num)
    (by rw [soilScan_length, soilScanRaw_img9_length]; norm_num [st9])

/-- Counterexample to C1 as stated: for the all-black one-by-one image the
scan retains no point, yet avgBrightness is 0, not 0.5; and the mean of the
normalized intensities over the final (all synthetic) points is 1, not 0. -/
theorem claim1_counterexample :
    soilScan imgB stD halfStream = [] ∧
    (genSoil imgB stD halfStream zeroChoice halfStream halfStream 1 1).2.avgBrightness
        = 0 ∧
    ((soilFinal imgB stD halfStream zeroChoice halfStream halfStream 1 1).map
          SoilPoint.n).sum /
        ((soilFinal imgB stD halfStream zeroChoice halfStream halfStream 1 1).length : ℚ)
        = 1 ∧
    (0 : ℚ) ≠ 1/2 ∧ (0 : ℚ) ≠ 1 := by
  have hdark : ∀ x y, x < imgB.W → y < imgB.H →
      lum (imgB.px x y) ≤ (stD.threshold : ℚ) :=
    fun x y _ _ => by simp [imgB, stD, lum]
  have hraw : soilScanRaw imgB stD = [] := soilScanRaw_eq_nil hdark
  have hfin : soilFinal imgB stD halfStream zeroChoice halfStream halfStream 1 1 =
      syntheticSoil halfStream halfStream 1 1 :=
    soilFinal_of_dark hdark halfStream zeroChoice halfStream halfStream 1 1
  refine ⟨by rw [soilScan, hraw]; rfl, ?_, ?_, by norm_num, by norm_num⟩
  · rw [genSoil_avgBrightness, brightnessSum, hraw]
    simp
  · rw [hfin, syntheticSoil_map_n, syntheticSoil_length]
    rw [List.sum_replicate]
    norm_num

/-! C4: output caps. -/

/-- C4 (amended): the preview list is capped at 4000 by simple truncation of
the scan order, and the final cap at maxPoints is enforced by a Fisher-Yates
shuffle followed by truncation; however the synthetic fallback can push the
final list above maxPoints, so the final length is only bounded by the
maximum of maxPoints and 169 (at most 49 capped points plus 120 synthetic
ones), and is at most maxPoints whenever maxPoints is at least 170. -/
theorem claim4_caps (img : Img) (st : Settings) (zs : ℕ → ℚ) (choice : ℕ → ℕ)
    (us vs : ℕ → ℚ) (Wq Hq : ℚ) :
    (soilFinal img st zs choice us vs Wq Hq).length ≤ max st.maxPoints 169 ∧
    (170 ≤ st.maxPoints →
      (soilFinal img st zs choice us vs Wq Hq).length ≤ st.maxPoints) ∧
    (st.maxPoints < (soilScan img st zs).length →
      soilAfterCap img st zs choice =
        (fisherYates choice (soilScan img st zs)).take st.maxPoints) ∧
    (recomputePreviewDots img st).length ≤ 4000 ∧
    recomputePreviewDots img st = (previewDotsAll img st).take 4000 := by
  have hcap := soilAfterCap_length_le_max img st zs choice
  have hmain : (soilFinal img st zs choice us vs Wq Hq).length ≤
      max st.maxPoints 169 := by
    rw [soilFinal_eq]
    split
    case isTrue h =>
      rw [List.length_append, syntheticSoil_length]
      have : (soilAfterCap img st zs choice).length + 120 ≤ 169 := by omega
      omega
    case isFalse h =>
      have := le_max_left st.maxPoints 169
      omega
  refine ⟨hmain, ?_, ?_, ?_, ?_⟩
  · intro h170
    have : max st.maxPoints 169 = st.maxPoints := max_eq_left (by omega)
    omega
  · intro h
    rw [soilAfterCap, if_pos h]
  · rw [recomputePreviewDots]
    split
    case isTrue h => simp [List.length_take]
    case isFalse h => omega
  · rw [recomputePreviewDots]
    split
    case isTrue h => rfl
    case isFalse h => rw [List.take_of_length_le (by omega)]

/-- Witness for C4: with the default settings (maxPoints 2000, at least 170)
the final point list of the all-black image stays within maxPoints. -/
theorem claim4_witness :
    (soilFinal imgB stD halfStream zeroChoice halfStream halfStream 1 1).length ≤
      stD.maxPoints :=
  (claim4_caps imgB stD halfStream zeroChoice halfStream halfStream 1 1).2.1
    (by norm_num [stD])

/-- Counterexample to C4 as stated: with maxPoints set to 100, the all-black
one-by-one image yields 120 synthetic points, exceeding maxPoints. -/
theorem claim4_counterexample :
    st100.maxPoints = 100 ∧
    (soilFinal imgB st100 halfStream zeroChoice halfStream halfStream 1 1).length
        = 120 ∧
    ¬((soilFinal imgB st100 halfStream zeroChoice halfStream halfStream 1 1).length
        ≤ st100.maxPoints) := by
  have hdark : ∀ x y, x < imgB.W → y < imgB.H →
      lum (imgB.px x y) ≤ (st100.threshold : ℚ) :=
    fun x y _ _ => by simp [imgB, st100, lum]
  have hfin := soilFinal_of_dark hdark halfStream zeroChoice halfStream
    halfStream 1 1
  rw [hfin, syntheticSoil_length]
  refine ⟨rfl, rfl, by norm_num [st100]⟩

/-! C10: the synthetic fallback is an append. -/

/-- C10: when the point list held at the fallback check (the scan output,
possibly capped at maxPoints) has at least 1 but fewer than 50 entries, the
120 synthetic points are appended to it, not substituted for it, so the
final list has exactly 120 more points; no synthetic point is added when at
least 50 points are held; and the final soil point list always has at least
50 points. -/
theorem claim10_fallbackAppend (img : Img) (st : Settings) (zs : ℕ → ℚ)
    (choice : ℕ → ℕ) (us vs : ℕ → ℚ) (Wq Hq : ℚ) :
    (1 ≤ (soilAfterCap img st zs choice).length →
      (soilAfterCap img st zs choice).length < 50 →
      soilFinal img st zs choice us vs Wq Hq =
        soilAfterCap img st zs choice ++ syntheticSoil us vs Wq Hq ∧
      (soilFinal img st zs choice us vs Wq Hq).length =
        (soilAfterCap img st zs choice).length + 120) ∧
    (50 ≤ (soilAfterCap img st zs choice).length →
      soilFinal img st zs choice us vs Wq Hq = soilAfterCap img st zs choice) ∧
    50 ≤ (soilFinal img st zs choice us vs Wq Hq).length := by
  refine ⟨?_, ?_, soilFinal_length_pos img st zs choice us vs Wq Hq⟩
  · intro _ h50
    rw [soilFinal_eq, if_pos h50]
    exact ⟨rfl, by rw [List.length_append, syntheticSoil_length]⟩
  · intro h50
    rw [soilFinal_eq, if_neg (by omega)]

lemma soilScanRaw_imgW1_length : (soilScanRaw imgW1 stD).length = 1 := by
  rw [soilScanRaw,
    show scanPositions imgW1.W imgW1.H (stepOf stD) = [(0, 0)] from by decide]
  norm_num [imgB, imgW1, stD, lum, List.filterMap_cons]

/-- Witness for C10: the one-by-one all-white image retains exactly one scan
point, and final generation appends the 120 synthetic points to it. -/
theorem claim10_witness :
    (soilAfterCap imgW1 stD halfStream zeroChoice).length = 1 ∧
    (soilFinal imgW1 stD halfStream zeroChoice halfStream halfStream 1 1).length =
      (soilAfterCap imgW1 stD halfStream zeroChoice).length + 120 := by
  have hscan : (soilScan imgW1 stD halfStream).length = 1 := by
    rw [soilScan_length, soilScanRaw_imgW1_length]
  have hlen : (soilAfterCap imgW1 stD halfStream zeroChoice).length = 1 := by
    rw [soilAfterCap, if_neg (by rw [hscan]; norm_num [stD])]
    exact hscan
  exact ⟨hlen,
    ((claim10_fallbackAppend imgW1 stD halfStream zeroChoice halfStream
        halfStream 1 1).1 (by omega) (by omega)).2⟩

/-! C2: the population spawner. -/

/-- A population of 103 identical soil points. -/
def pts103 : List SoilPoint := List.replicate 103 ⟨0, 0, 0, 200, 1/2⟩

/-- A behavior profile with density factor 13/10 (the density factor
produced by spacing 2). -/
def behTest : SoilBehavior := ⟨13/10, 1, 1, 1, 1/2⟩

/-- C2 (amended): the spawner selects pairwise-distinct soil point indices (a
prefix of a Fisher-Yates permutation of all indices), the number of spawned
creatures never exceeds the available point count, and it equals
floor(floor(remap(pointCount, 50 to 1200, 30 to 160)) * densityFactor)
clamped to the interval from 0 to pointCount: the remapped value is floored
to an integer before the multiplication by the density factor. -/
theorem claim2_spawner (points : List SoilPoint) (behavior : SoilBehavior)
    (species : Species) (choice : ℕ → ℕ) (hues : ℕ → ℚ) :
    (setupCreatures points behavior species choice hues).length =
      (targetCount points.length behavior.densityFactor).toNat ∧
    (setupCreatures points behavior species choice hues).length ≤
      points.length ∧
    (selectedIndices points.length behavior.densityFactor choice).Nodup ∧
    (∀ i ∈ selectedIndices points.length behavior.densityFactor choice,
      i < points.length) ∧
    (fisherYates choice (List.range points.length)).Perm
      (List.range points.length) := by
  refine ⟨setupCreatures_length points behavior species choice hues, ?_,
    selectedIndices_nodup _ _ _, selectedIndices_lt _ _ _,
    fisherYates_perm choice _⟩
  rw [setupCreatures_length]
  exact Int.toNat_le.mpr (targetCount_le _ _)

/-- Witness for C2 at a concrete population: 103 identical points, density
factor 13/10. -/
theorem claim2_witness :
    (setupCreatures pts103 behTest Species.torus zeroChoice halfStream).length =
      (targetCount pts103.length behTest.densityFactor).toNat ∧
    (setupCreatures pts103 behTest Species.torus zeroChoice halfStream).length ≤
      pts103.length ∧
    (selectedIndices pts103.length behTest.densityFactor zeroChoice).Nodup ∧
    (∀ i ∈ selectedIndices pts103.length behTest.densityFactor zeroChoice,
      i < pts103.length) ∧
    (fisherYates zeroChoice (List.range pts103.length)).Perm
      (List.range pts103.length) :=
  claim2_spawner pts103 behTest Species.torus zeroChoice halfStream

lemma mapRange_103 : mapRange ((103 : ℕ) : ℚ) 50 1200 30 160 = 4139/115 := by
  rw [mapRange]
  norm_num

/-- Counterexample to C2 as stated: with 103 points and density factor 13/10
(the density factor of spacing 2), the spawner creates 45 creatures, while
floor(remap(103, 50 to 1200, 30 to 160) * 13/10) clamped to the point count
is 46: the source floors the remapped value before multiplying. -/
theorem claim2_counterexample :
    pts103.length = 103 ∧ behTest.densityFactor = 13/10 ∧
    (setupCreatures pts103 behTest Species.torus zeroChoice halfStream).length
        = 45 ∧
    specTargetPlantCount 103 (13/10) = 46 := by
  have hlen : pts103.length = 103 := by simp [pts103]
  have hfl1 : ⌊(4139/115 : ℚ)⌋ = (35 : ℤ) := by
    rw [Int.floor_eq_iff]; norm_num
  have htc : targetCount 103 (13/10) = 45 := by
    rw [targetCount, mapRange_103, hfl1]
    rw [show (((35 : ℤ) : ℚ)) * (13/10) = 91/2 from by norm_num]
    rw [show ⌊(91/2 : ℚ)⌋ = (45 : ℤ) from by rw [Int.floor_eq_iff]; norm_num]
    norm_num
  refine ⟨hlen, rfl, ?_, ?_⟩
  · rw [setupCreatures_length, hlen]
    show (targetCount 103 (13/10)).toNat = 45
    rw [htc]
    rfl
  · rw [specTargetPlantCount]
    rw [show mapRange ((103 : ℕ) : ℚ) 50 1200 30 160 = 4139/115 from
      mapRange_103]
    rw [show (4139/115 : ℚ) * (13/10) = 53807/1150 from by norm_num]
    rw [show ⌊(53807/1150 : ℚ)⌋ = (46 : ℤ) from by
      rw [Int.floor_eq_iff]; norm_num]
    norm_num

/-! C5: thresholding and normalization. -/

lemma mem_soilScanRaw {img : Img} {st : Settings} {h : ScanHit}
    (hmem : h ∈ soilScanRaw img st) :
    ∃ xy ∈ scanPositions img.W img.H (stepOf st),
      h.br = lum (img.px xy.1 xy.2) ∧ (st.threshold : ℚ) < h.br := by
  rw [soilScanRaw, List.mem_filterMap] at hmem
  obtain ⟨xy, hxy, hf⟩ := hmem
  by_cases hc : (st.threshold : ℚ) < lum (img.px xy.1 xy.2)
  · rw [if_pos hc] at hf
    have := Option.some.inj hf
    subst this
    exact ⟨xy, hxy, rfl, hc⟩
  · rw [if_neg hc] at hf
    cases hf

lemma mem_previewDotsAll {img : Img} {st : Settings} {d : PreviewDot}
    (hd : d ∈ previewDotsAll img st) :
    ∃ xy ∈ scanPositions img.W img.H (stepOf st),
      (st.threshold : ℚ) < lum (img.px xy.1 xy.2) ∧
      d.size = normalizedOf st.threshold (lum (img.px xy.1 xy.2)) * st.dotSize := by
  rw [previewDotsAll, List.mem_filterMap] at hd
  obtain ⟨xy, hxy, hf⟩ := hd
  by_cases hc : (st.threshold : ℚ) < lum (img.px xy.1 xy.2)
  · rw [if_pos hc] at hf
    by_cases hr : normalizedOf st.threshold (lum (img.px xy.1 xy.2)) * st.dotSize
        ≤ 0.3
    · rw [if_pos hr] at hf
      cases hf
    · rw [if_neg hr] at hf
      have := Option.some.inj hf
      subst this
      exact ⟨xy, hxy, hc, rfl⟩
  · rw [if_neg hc] at hf
    cases hf

lemma mem_recomputePreviewDots {img : Img} {st : Settings} {d : PreviewDot}
    (hd : d ∈ recomputePreviewDots img st) : d ∈ previewDotsAll img st := by
  rw [recomputePreviewDots] at hd
  split at hd
  · exact List.mem_of_mem_take hd
  · exact hd

/-- C5: every point retained by either scan (excluding synthetic fallback
points) has luminance strictly above the threshold, its normalized intensity
equals (luminance - threshold) / max(1, 255 - threshold) and lies in the
unit interval, and for a fixed threshold the normalization is strictly
increasing in luminance. -/
theorem claim5_normalization (img : Img) (st : Settings) (zs : ℕ → ℚ)
    (hthr : st.threshold ≤ 255)
    (hch : ∀ x y, x < img.W → y < img.H →
      (img.px x y).1 ≤ 255 ∧ (img.px x y).2.1 ≤ 255 ∧ (img.px x y).2.2 ≤ 255) :
    (∀ p ∈ soilScan img st zs,
      (st.threshold : ℚ) < p.b ∧
      p.n = (p.b - (st.threshold : ℚ)) /
        max 1 ((255 : ℚ) - (st.threshold : ℚ)) ∧
      0 ≤ p.n ∧ p.n ≤ 1) ∧
    (∀ d ∈ recomputePreviewDots img st, ∃ br : ℚ,
      (st.threshold : ℚ) < br ∧ br ≤ 255 ∧
      d.size = ((br - (st.threshold : ℚ)) /
        max 1 ((255 : ℚ) - (st.threshold : ℚ))) * st.dotSize ∧
      0 ≤ normalizedOf st.threshold br ∧ normalizedOf st.threshold br ≤ 1) ∧
    (∀ b1 b2 : ℚ, b1 < b2 →
      normalizedOf st.threshold b1 < normalizedOf st.threshold b2) := by
  have hbr_le : ∀ xy ∈ scanPositions img.W img.H (stepOf st),
      lum (img.px xy.1 xy.2) ≤ 255 := by
    intro xy hxy
    obtain ⟨hx, hy⟩ := mem_scanPositions (le_max_left 1 st.spacing) hxy
    obtain ⟨h1, h2, h3⟩ := hch xy.1 xy.2 hx hy
    exact lum_le_255 h1 h2 h3
  refine ⟨?_, ?_, fun b1 b2 hb => normalizedOf_strictMono hthr hb⟩
  · intro p hp
    obtain ⟨h, hmem, hb, hn⟩ := mem_attachZ hp
    obtain ⟨xy, hxy, hbr, hlt⟩ := mem_soilScanRaw hmem
    have hlt' : (st.threshold : ℚ) < p.b := hb ▸ hlt
    have hle : p.b ≤ 255 := by
      rw [hb, hbr]
      exact hbr_le xy hxy
    refine ⟨hlt', ?_, ?_, ?_⟩
    · rw [hn, hb, normalizedOf_eq_max hthr]
    · rw [hn, ← hb]
      exact normalizedOf_nonneg hthr hlt'
    · rw [hn, ← hb]
      exact normalizedOf_le_one hthr hle
  · intro d hd
    obtain ⟨xy, hxy, hlt, hsize⟩ := mem_previewDotsAll (mem_recomputePreviewDots hd)
    refine ⟨lum (img.px xy.1 xy.2), hlt, hbr_le xy hxy, ?_,
      normalizedOf_nonneg hthr hlt, normalizedOf_le_one hthr (hbr_le xy hxy)⟩
    rw [hsize, normalizedOf_eq_max hthr]

/-- Witness for C5 at the uniform gray scenario. -/
theorem claim5_witness :
    st9.threshold ≤ 255 ∧
    ((∀ p ∈ soilScan img9 st9 halfStream,
      (st9.threshold : ℚ) < p.b ∧
      p.n = (p.b - (st9.threshold : ℚ)) /
        max 1 ((255 : ℚ) - (st9.threshold : ℚ)) ∧
      0 ≤ p.n ∧ p.n ≤ 1) ∧
    (∀ d ∈ recomputePreviewDots img9 st9, ∃ br : ℚ,
      (st9.threshold : ℚ) < br ∧ br ≤ 255 ∧
      d.size = ((br - (st9.threshold : ℚ)) /
        max 1 ((255 : ℚ) - (st9.threshold : ℚ))) * st9.dotSize ∧
      0 ≤ normalizedOf st9.threshold br ∧ normalizedOf st9.threshold br ≤ 1) ∧
    (∀ b1 b2 : ℚ, b1 < b2 →
      normalizedOf st9.threshold b1 < normalizedOf st9.threshold b2)) :=
  ⟨by norm_num [st9],
    claim5_normalization img9 st9 halfStream (by norm_num [st9])
      (fun x y _ _ => by norm_num [img9])⟩

/-! C6: monotonicity of the behavior factors. -/

/-- C6: the behavior factors of the profile computed by generateDigitalSoil
are the stated remaps, the density factor is strictly decreasing in spacing
on the slider range, and for any fixed threshold between 0 and 255 the height
and thickness factors are strictly increasing in dot size. -/
theorem claim6_behaviorMonotonic :
    (∀ (img : Img) (st : Settings) (zs : ℕ → ℚ) (choice : ℕ → ℕ)
      (us vs : ℕ → ℚ) (Wq Hq : ℚ),
      (genSoil img st zs choice us vs Wq Hq).2.densityFactor =
        mapRange (st.spacing : ℚ) 2 20 1.3 0.5 ∧
      (genSoil img st zs choice us vs Wq Hq).2.heightFactor =
        mapRange st.dotSize 2 20 0.7 1.6 *
          mapRange (st.threshold : ℚ) 0 255 0.8 1.25 ∧
      (genSoil img st zs choice us vs Wq Hq).2.thicknessFactor =
        mapRange st.dotSize 2 20 0.7 1.6) ∧
    (∀ s1 s2 : ℚ, 2 ≤ s1 → s1 < s2 → s2 ≤ 20 →
      mapRange s2 2 20 1.3 0.5 < mapRange s1 2 20 1.3 0.5) ∧
    (∀ t : ℚ, 0 ≤ t → t ≤ 255 → ∀ d1 d2 : ℚ, 2 ≤ d1 → d1 < d2 → d2 ≤ 20 →
      mapRange d1 2 20 0.7 1.6 * mapRange t 0 255 0.8 1.25 <
        mapRange d2 2 20 0.7 1.6 * mapRange t 0 255 0.8 1.25) ∧
    (∀ d1 d2 : ℚ, 2 ≤ d1 → d1 < d2 → d2 ≤ 20 →
      mapRange d1 2 20 0.7 1.6 < mapRange d2 2 20 0.7 1.6) := by
  have hthick : ∀ d1 d2 : ℚ, 2 ≤ d1 → d1 < d2 → d2 ≤ 20 →
      mapRange d1 2 20 0.7 1.6 < mapRange d2 2 20 0.7 1.6 := by
    intro d1 d2 _ h12 _
    rw [mapRange, mapRange]
    have : (d1 - 2) / (20 - 2) < (d2 - 2) / (20 - 2) := by
      apply div_lt_div_of_pos_right (by linarith) (by norm_num)
    nlinarith
  refine ⟨fun img st zs choice us vs Wq Hq => ⟨rfl, rfl, rfl⟩, ?_, ?_, hthick⟩
  · intro s1 s2 _ h12 _
    rw [mapRange, mapRange]
    have : (s1 - 2) / (20 - 2) < (s2 - 2) / (20 - 2) := by
      apply div_lt_div_of_pos_right (by linarith) (by norm_num)
    nlinarith
  · intro t ht0 ht255 d1 d2 h2 h12 h20
    have hpos : 0 < mapRange t 0 255 0.8 1.25 := by
      rw [mapRange]
      have h1 : 0 ≤ t / 255 := by positivity
      have h2 : (t - 0) / (255 - 0) = t / 255 := by ring
      rw [h2]
      nlinarith
    exact mul_lt_mul_of_pos_right (hthick d1 d2 h2 h12 h20) hpos

/-- Witness for C6 at spacing 2 versus 3, dot size 2 versus 3, threshold 0. -/
theorem claim6_witness :
    mapRange 3 2 20 1.3 0.5 < mapRange 2 2 20 1.3 0.5 ∧
    mapRange 2 2 20 0.7 1.6 * mapRange 0 0 255 0.8 1.25 <
      mapRange 3 2 20 0.7 1.6 * mapRange 0 0 255 0.8 1.25 ∧
    mapRange 2 2 20 0.7 1.6 < mapRange 3 2 20 0.7 1.6 :=
  ⟨claim6_behaviorMonotonic.2.1 2 3 (by norm_num) (by norm_num) (by norm_num),
    claim6_behaviorMonotonic.2.2.1 0 (by norm_num) (by norm_num) 2 3
      (by norm_num) (by norm_num) (by norm_num),
    claim6_behaviorMonotonic.2.2.2 2 3 (by norm_num) (by norm_num)
      (by norm_num)⟩

/-! C7: purity of the creature update. -/

/-- C7: the creature update is a pure state transition: it stores the four
interaction scalars, derives time = frame * 0.03, touches nothing else, and
is idempotent: applying it twice with the same five arguments leaves the
creature in exactly the state of applying it once. -/
theorem claim7_updateIdempotent (c : Creature) (g w ct v f : ℚ) :
    Creature.update (Creature.update c g w ct v f) g w ct v f =
      Creature.update c g w ct v f ∧
    (Creature.update c g w ct v f).growth = g ∧
    (Creature.update c g w ct v f).wind = w ∧
    (Creature.update c g w ct v f).contraction = ct ∧
    (Creature.update c g w ct v f).verticalInf = v ∧
    (Creature.update c g w ct v f).time = f * 0.03 ∧
    (Creature.update c g w ct v f).baseX = c.baseX ∧
    (Creature.update c g w ct v f).baseY = c.baseY ∧
    (Creature.update c g w ct v f).baseZ = c.baseZ ∧
    (Creature.update c g w ct v f).strength = c.strength ∧
    (Creature.update c g w ct v f).heightBase = c.heightBase ∧
    (Creature.update c g w ct v f).radiusBase = c.radiusBase ∧
    (Creature.update c g w ct v f).thickness = c.thickness ∧
    (Creature.update c g w ct v f).hueOffset = c.hueOffset :=
  ⟨rfl, rfl, rfl, rfl, rfl, rfl, rfl, rfl, rfl, rfl, rfl, rfl, rfl, rfl⟩

/-! C8: convergence of the interaction smoothing. -/

/-- C8: for each smoothed interaction scalar (wind with lerp coefficient
0.05, vertical influence and contraction with coefficient 0.1), under a
constant target the signed distance to the target shrinks by a fixed factor
each tick, never changes sign (no overshoot), and for every positive epsilon
the smoothed value is within epsilon of the target after finitely many
ticks. -/
theorem claim8_smoothingConverges (T w0 : ℚ) :
    (∀ n, T - smoothIter windSmooth T w0 (n + 1) =
      (1 - 0.05) * (T - smoothIter windSmooth T w0 n)) ∧
    (∀ n, T - smoothIter verticalSmooth T w0 (n + 1) =
      (1 - 0.1) * (T - smoothIter verticalSmooth T w0 n)) ∧
    (∀ n, T - smoothIter contractionSmooth T w0 (n + 1) =
      (1 - 0.1) * (T - smoothIter contractionSmooth T w0 n)) ∧
    (∀ n, (0 ≤ T - w0 → 0 ≤ T - smoothIter windSmooth T w0 n) ∧
      (T - w0 ≤ 0 → T - smoothIter windSmooth T w0 n ≤ 0)) ∧
    (∀ n, (0 ≤ T - w0 → 0 ≤ T - smoothIter verticalSmooth T w0 n) ∧
      (T - w0 ≤ 0 → T - smoothIter verticalSmooth T w0 n ≤ 0)) ∧
    (∀ n, (0 ≤ T - w0 → 0 ≤ T - smoothIter contractionSmooth T w0 n) ∧
      (T - w0 ≤ 0 → T - smoothIter contractionSmooth T w0 n ≤ 0)) ∧
    (∀ ε : ℚ, 0 < ε → ∃ N, ∀ n, N ≤ n →
      |T - smoothIter windSmooth T w0 n| < ε) ∧
    (∀ ε : ℚ, 0 < ε → ∃ N, ∀ n, N ≤ n →
      |T - smoothIter verticalSmooth T w0 n| < ε) ∧
    (∀ ε : ℚ, 0 < ε → ∃ N, ∀ n, N ≤ n →
      |T - smoothIter contractionSmooth T w0 n| < ε) := by
  have hfw : ∀ t w : ℚ, windSmooth t w = lerp w t 0.05 := fun _ _ => rfl
  have hfv : ∀ t w : ℚ, verticalSmooth t w = lerp w t 0.1 := fun _ _ => rfl
  have hfc : ∀ t w : ℚ, contractionSmooth t w = lerp w t 0.1 := fun _ _ => rfl
  exact ⟨fun n => smoothIter_step hfw T w0 n,
    fun n => smoothIter_step hfv T w0 n,
    fun n => smoothIter_step hfc T w0 n,
    fun n => smoothIter_sign (by norm_num) (by norm_num) hfw T w0 n,
    fun n => smoothIter_sign (by norm_num) (by norm_num) hfv T w0 n,
    fun n => smoothIter_sign (by norm_num) (by norm_num) hfc T w0 n,
    fun ε hε => smoothIter_tendsto (by norm_num) (by norm_num) hfw T w0 hε,
    fun ε hε => smoothIter_tendsto (by norm_num) (by norm_num) hfv T w0 hε,
    fun ε hε => smoothIter_tendsto (by norm_num) (by norm_num) hfc T w0 hε⟩

/-- Witness for C8: from wind 0 toward constant target 1, the smoothed value
eventually stays within one hundredth of the target. -/
theorem claim8_witness :
    ∃ N, ∀ n, N ≤ n → |1 - smoothIter windSmooth 1 0 n| < 1/100 :=
  (claim8_smoothingConverges 1 0).2.2.2.2.2.2.1 (1/100) (by norm_num)
